import Mathlib

/-!
Verification development for the krishna-reel-machine repository.

The repository's caption pipeline lives in `generate_text.py` (history
helpers, normalization, duplicate detection, and the retry orchestrator
`generate_unique_krishna_line`) and `create_image.py` (style examples,
used-line state, cleaning, emoji policy, the orchestrator
`generate_deep_krishna_line`, and the text layout in
`draw_centered_text`).

Strings are modelled as Lean `String`s (lists of Unicode scalar values).
Python's `str.lower()` is modelled by the ASCII case mapping
(`Char.toLower`): the pipeline's domain is Devanagari text, digits,
ASCII and emoji, on which the two agree.  Python's `\w` regex class is
modelled as ASCII alphanumerics plus underscore; the Devanagari block
U+0900–U+097F, which the source keeps via an explicit range, is modelled
separately, exactly as in the source character class.  Python's `\s` and
`str.strip()/split()` whitespace is modelled by the six ASCII whitespace
characters.
-/

/-- The six characters matched by Python's `\s` (ASCII range): space, tab,
newline, vertical tab, form feed, carriage return. -/
def isPySpace (c : Char) : Bool :=
  c.toNat = 32 || (9 ≤ c.toNat && c.toNat ≤ 13)

/-- Characters of the Devanagari block U+0900–U+097F, kept explicitly by
the character class in `normalize_for_compare` (generate_text.py:44). -/
def isDevanagari (c : Char) : Bool :=
  0x900 ≤ c.toNat && c.toNat ≤ 0x97F

/-- Model of Python's `\w`: alphanumerics plus underscore (ASCII part:
digits, upper-case letters, lower-case letters, underscore). -/
def isWordChar (c : Char) : Bool :=
  (48 ≤ c.toNat && c.toNat ≤ 57) || (65 ≤ c.toNat && c.toNat ≤ 90) ||
  (97 ≤ c.toNat && c.toNat ≤ 122) || c.toNat = 95

/-- The class kept by `re.sub(r"[^\w\sऀ-ॿ]", "", text)` in
`normalize_for_compare` (generate_text.py:44). -/
def keepChar (c : Char) : Bool :=
  isWordChar c || isPySpace c || isDevanagari c

/-- One step of `re.sub(r"\s+", " ", text)`: the flag records whether the
previously emitted character was (the collapse of) a whitespace run. -/
def collapseAux : Bool → List Char → List Char
  | _, [] => []
  | prevSp, c :: rest =>
    if isPySpace c then
      if prevSp then collapseAux true rest
      else ' ' :: collapseAux true rest
    else c :: collapseAux false rest

/-- `re.sub(r"\s+", " ", text)`: every maximal whitespace run becomes one
space. -/
def collapseWs (cs : List Char) : List Char :=
  collapseAux false cs

/-- Remove trailing Python whitespace. -/
def stripEndWs : List Char → List Char
  | [] => []
  | c :: rest =>
    match stripEndWs rest with
    | [] => if isPySpace c then [] else [c]
    | r => c :: r

/-- Python `str.strip()`: remove leading and trailing whitespace. -/
def stripWs (cs : List Char) : List Char :=
  stripEndWs (cs.dropWhile isPySpace)

/-- Does `needle` occur at the start of `hay`? (Python `str.startswith`.) -/
def startsWithChars : List Char → List Char → Bool
  | [], _ => true
  | _ :: _, [] => false
  | a :: as, b :: bs => a = b && startsWithChars as bs

/-- Does `needle` occur as a contiguous substring of `hay`?  Models the
Python expression `needle in hay` on strings. -/
def hasSub (hay needle : List Char) : Bool :=
  startsWithChars needle hay ||
    match hay with
    | [] => false
    | _ :: t => hasSub t needle

/-- Python `str.split()` with no separator, as a left scan: `acc` holds
the current word's characters in reverse; a whitespace character flushes
a nonempty `acc`; the trailing word is flushed at the end.  Produces the
maximal non-whitespace runs, never an empty string. -/
def splitAux : List Char → List Char → List (List Char)
  | [], acc => if acc = [] then [] else [acc.reverse]
  | c :: rest, acc =>
    if isPySpace c then
      if acc = [] then splitAux rest []
      else acc.reverse :: splitAux rest []
    else splitAux rest (c :: acc)

/-- Python `str.split()` with no separator. -/
def wordsOfChars (cs : List Char) : List (List Char) :=
  splitAux cs []

/-- Every whitespace character of `l` is the plain space U+0020. -/
abbrev spacesSimple (l : List Char) : Prop :=
  ∀ c ∈ l, isPySpace c = true → c = ' '

/-- No two adjacent characters of `l` are both whitespace. -/
abbrev noTwoSpaces (l : List Char) : Prop :=
  List.Chain' (fun a b => ¬(isPySpace a = true ∧ isPySpace b = true)) l

/-- The first character of `l`, if any, is not whitespace. -/
abbrev headNotSp (l : List Char) : Prop :=
  ∀ c ∈ l.head?, isPySpace c = false

/-- The last character of `l`, if any, is not whitespace. -/
abbrev lastNotSp (l : List Char) : Prop :=
  ∀ c ∈ l.getLast?, isPySpace c = false

/-- Python `" ".join(pieces)` at the character-list level. -/
def joinSpChars : List (List Char) → List Char
  | [] => []
  | [g] => g
  | g :: gs => g ++ ' ' :: joinSpChars gs

/-- Python `str.split()` on a Lean string. -/
def pySplit (s : String) : List String :=
  (wordsOfChars s.data).map List.asString

/-- Python `" ".join(pieces)` on Lean strings. -/
def joinSp (g : List String) : String :=
  (joinSpChars (g.map String.data)).asString

namespace GenerateText

/-- Embedding of `normalize_for_compare` (generate_text.py:41-46) at the
character-list level: drop characters outside `\w`, `\s` and the
Devanagari block; collapse whitespace runs to single spaces; strip; then
lower-case. -/
def normChars (cs : List Char) : List Char :=
  (stripWs (collapseWs (cs.filter keepChar))).map Char.toLower

/-- Embedding of `normalize_for_compare` (generate_text.py:41-46). -/
def normalize_for_compare (s : String) : String :=
  (normChars s.data).asString

/-- Embedding of `is_too_similar` (generate_text.py:49-68): an empty
normalized candidate is rejected outright; otherwise the candidate is
rejected exactly when some history entry with a nonempty normalized form
is equal to it, contains it, or is contained in it. -/
def is_too_similar (candidate : String) (used_lines : List String) : Bool :=
  let cand_norm := normalize_for_compare candidate
  if cand_norm = "" then true
  else used_lines.any fun old =>
    let old_norm := normalize_for_compare old
    if old_norm = "" then false
    else
      cand_norm = old_norm ||
      hasSub old_norm.data cand_norm.data ||
      hasSub cand_norm.data old_norm.data

/-- The quote characters stripped from the ends of a candidate by
`clean_line` in generate_text.py:92-93: `"` `“` `”` `'` `‘` `’`. -/
def gtQuoteMark (c : Char) : Bool :=
  c = Char.ofNat 34 || c = '“' || c = '”' ||
  c = Char.ofNat 39 || c = '‘' || c = '’'

/-- Embedding of `clean_line` (generate_text.py:88-95): strip, remove a
leading and a trailing run of quote characters, collapse whitespace,
strip again. -/
def clean_line (s : String) : String :=
  let t := stripWs s.data
  let t := t.dropWhile gtQuoteMark
  let t := (t.reverse.dropWhile gtQuoteMark).reverse
  (stripWs (collapseWs t)).asString

/-- Python `[A-Za-z]`. -/
def isEnglishLetter (c : Char) : Bool :=
  (65 ≤ c.toNat && c.toNat ≤ 90) || (97 ≤ c.toNat && c.toNat ≤ 122)

/-- The accepted Krishna names searched for by `is_valid_hindi_line`
(generate_text.py:157). -/
def KRISHNA_NAMES : List String :=
  ["कृष्ण", "श्रीकृष्ण", "कान्हा", "श्याम", "गोपाल", "माधव"]

/-- Embedding of `is_valid_hindi_line` (generate_text.py:148-162): needs
a Devanagari character, no English letter, a Krishna name as substring,
and at least 4 whitespace-separated words. -/
def is_valid_hindi_line (line : String) : Bool :=
  line.data.any isDevanagari &&
  !(line.data.any isEnglishLetter) &&
  KRISHNA_NAMES.any (fun n => hasSub line.data n.data) &&
  !((pySplit line).length < 4)

/-- Embedding of the accept-path history update `used.append(candidate)`
(generate_text.py:190). -/
def addUsed (used : List String) (candidate : String) : List String :=
  used ++ [candidate]

/-- Embedding of `save_used_texts` (generate_text.py:34-38): the persisted
file receives exactly the given list — the full history, with no
truncation or eviction. -/
def save_used_texts (lines : List String) : List String :=
  lines

/-- The retry loop of `generate_unique_krishna_line`
(generate_text.py:165-200).  Each element of `attempts` is one loop
iteration's provider outcome: `none` when `generate_candidate_line`
raised (provider error or empty response, caught at line 177), `some raw`
when it returned `raw` (to which it applied `clean_line`, line 143).
`lastGood` mirrors the `last_good` variable: it is initialized to `None`
at line 171 and — exactly as in the source — never assigned afterwards,
so the exhaustion branch can only reach the final `raise RuntimeError`
(line 200), modelled as `Except.error`. -/
def goUnique : List (Option String) → List String → Option String →
    Except String (String × List String)
  | [], _, lastGood =>
    match lastGood with
    | some l => Except.ok (l, [])
    | none => Except.error "कोई भी valid हिंदी कृष्ण लाइन नहीं बन पाई।"
  | none :: rest, used, lastGood => goUnique rest used lastGood
  | some raw :: rest, used, lastGood =>
    let candidate := clean_line raw
    if !is_valid_hindi_line candidate then goUnique rest used lastGood
    else if is_too_similar candidate used then goUnique rest used lastGood
    else Except.ok (candidate, save_used_texts (addUsed used candidate))

/-- Embedding of `generate_unique_krishna_line` (generate_text.py:165-200)
as a function of the run's provider outcomes and the loaded history; on
acceptance it returns the candidate together with the persisted history. -/
def generate_unique_krishna_line (attempts : List (Option String))
    (used : List String) : Except String (String × List String) :=
  goUnique attempts used none

end GenerateText

namespace CreateImage

/-- The built-in style examples of create_image.py:42-53, also treated as
already-used lines. -/
def STYLE_EXAMPLES : List String :=
  [ "जब सब छूट जाए, तब भी श्रीकृष्ण साथ रहते हैं। ❤️",
    "जिसने कृष्ण को पाया, उसने सब कुछ पा लिया। 🌸",
    "कृष्ण पर छोड़ दो, वह तुम्हें संभाल लेंगे। 💙",
    "जहाँ भरोसा कृष्ण पर हो, वहाँ डर कभी टिकता नहीं। ✨",
    "कृष्ण का नाम ही हर समस्या का समाधान है। 🦚",
    "जो हुआ अच्छा हुआ, जो हो रहा है कृष्ण की इच्छा से हो रहा है। 🌿",
    "कृष्ण की शरण में गए तो फिर किसी सहारे की ज़रूरत नहीं। 🕊️",
    "हर टूटे दिल की दवा सिर्फ एक — श्रीकृष्ण। ❤️",
    "कृष्ण ने संभाल लिया, अब मुझे किसी बात का डर नहीं। 🌙",
    "कृष्ण चुप रहते हैं, लेकिन कभी गलत नहीं करते। 🔱" ]

/-- The allowed/appendable emojis of create_image.py:39. -/
def EMOJIS : List String :=
  ["❤️", "🌸", "🦚", "🕊️", "✨", "💙", "🌿", "🌙"]

/-- The three observable conditions of the state file read by
`load_used_lines` (create_image.py:67-78): missing, unparsable, or a
parsed list of strings. -/
inductive UsedState
  | missing
  | corrupt
  | valid (data : List String)

/-- Embedding of `load_used_lines` (create_image.py:67-78): a missing or
corrupt state file yields the style examples; a valid one is merged with
them. -/
def load_used_lines : UsedState → Finset String
  | .missing => STYLE_EXAMPLES.toFinset
  | .corrupt => STYLE_EXAMPLES.toFinset
  | .valid data => data.toFinset ∪ STYLE_EXAMPLES.toFinset

/-- Embedding of `is_hindi` (create_image.py:91-93). -/
def is_hindi (text : String) : Bool :=
  text.data.any fun c => 0x900 ≤ c.toNat && c.toNat ≤ 0x97F

/-- The characters stripped one at a time from the ends of a candidate by
`clean_line` in create_image.py:101. -/
def ciStripMarks : List Char :=
  [Char.ofNat 34, '“', '”', Char.ofNat 39, '‘', '’', '-', '•']

/-- One iteration of the stripping loop in `clean_line`
(create_image.py:101-105): remove one leading and one trailing occurrence
of `q`, re-stripping whitespace after each removal. -/
def ciStripOnce (t : List Char) (q : Char) : List Char :=
  let t := if t.head? = some q then stripWs (t.drop 1) else t
  if t.getLast? = some q then stripWs t.dropLast else t

/-- Embedding of `clean_line` (create_image.py:95-108): empty input stays
empty; otherwise strip, keep only the first line, run the quote/bullet
stripping loop, then re-join the whitespace-split words with single
spaces. -/
def clean_line (raw : String) : String :=
  if raw = "" then ""
  else
    let t := (stripWs raw.data).takeWhile (fun c => c ≠ Char.ofNat 10)
    let t := ciStripMarks.foldl ciStripOnce t
    (joinSpChars (wordsOfChars t)).asString

/-- The terminal punctuation recognized by `ensure_emoji`
(create_image.py:117). -/
def endPunct : List Char :=
  ['।', '.', '!', '…']

/-- Embedding of `ensure_emoji` (create_image.py:110-120).  `extra`
stands for the two-emoji string drawn by `random.sample(EMOJIS, k=2)`;
it is a parameter because the draw is random.  If the text already
contains an allowed emoji it is returned unchanged; otherwise the draw is
appended, after a danda when the text does not already end in terminal
punctuation. -/
def ensure_emoji (text : String) (extra : String) : String :=
  if EMOJIS.any (fun e => hasSub text.data e.data) then text
  else
    match text.data.getLast? with
    | some c =>
      if endPunct.contains c then text ++ " " ++ extra
      else text ++ "। " ++ extra
    | none => text ++ "। " ++ extra

/-- The retry loop of `generate_deep_krishna_line`
(create_image.py:124-214).  Each element of `attempts` is one
iteration's outcome: `none` for a provider error or empty response,
`some (raw, draw)` for a response `raw` together with the emoji pair
`draw` that `ensure_emoji` would sample for it.  `seen` mirrors
`seen_this_call`; `used` the used-lines set.  On exhaustion the fallback
path picks `fbPick` (standing for `random.choice(STYLE_EXAMPLES)`),
cleans it, ensures an emoji with draw `fbDraw`, records and returns it. -/
def deepGo (fbPick fbDraw : String) :
    List (Option (String × String)) → Finset String → Finset String →
    String × Finset String
  | [], used, _seen =>
    let fb := ensure_emoji (clean_line fbPick) fbDraw
    (fb, insert fb used)
  | none :: rest, used, seen => deepGo fbPick fbDraw rest used seen
  | some (raw, draw) :: rest, used, seen =>
    let line := clean_line raw
    if line = "" then deepGo fbPick fbDraw rest used seen
    else if !is_hindi line then deepGo fbPick fbDraw rest used seen
    else if !(8 ≤ (pySplit line).length && (pySplit line).length ≤ 16) then
      deepGo fbPick fbDraw rest used seen
    else
      let line2 := ensure_emoji line draw
      if line2 ∈ used ∨ line2 ∈ seen then deepGo fbPick fbDraw rest used seen
      else (line2, insert line2 used)

/-- Embedding of `generate_deep_krishna_line` (create_image.py:124-214),
returning the chosen line and the updated used-lines set. -/
def generate_deep_krishna_line (attempts : List (Option (String × String)))
    (fbPick fbDraw : String) (used : Finset String) : String × Finset String :=
  deepGo fbPick fbDraw attempts used ∅

/-- The greedy word-wrap loop of `draw_centered_text`
(create_image.py:281-296), over the whitespace-split `words` and the
running `current` line.  `f` models `text_size` width measurement
(`draw.textbbox` with the fixed size-52 font): the loop measures the
candidate line `" ".join(current + [w])`; if it fits within `maxW` the
word extends the current line, otherwise the current line (when
nonempty) is flushed and the word starts a new one.  Lines are kept as
word groups; the rendered strings are their space-joins. -/
def wrapLoop (f : String → Nat) (maxW : Nat) :
    List String → List String → List (List String)
  | [], current => if current = [] then [] else [current]
  | w :: ws, current =>
    if f (joinSp (current ++ [w])) ≤ maxW then
      wrapLoop f maxW ws (current ++ [w])
    else if current = [] then wrapLoop f maxW ws [w]
    else current :: wrapLoop f maxW ws [w]

/-- The `lines` list computed by `draw_centered_text`
(create_image.py:282-296) for input `text`. -/
def wrappedLines (f : String → Nat) (maxW : Nat) (text : String) :
    List String :=
  (wrapLoop f maxW (pySplit text) []).map joinSp

/-- The font size used by `draw_centered_text` (create_image.py:273): the
Devanagari font is loaded once at size 52 and never re-sized, whatever
the input text is. -/
def draw_font_size (text : String) : Nat :=
  let _ := text
  52

/-- The vertical start of the text block computed by `draw_centered_text`
(create_image.py:302): `y_start = int(ch * 0.70 - total_height / 2)`.
Modelled over ℚ; the Python float arithmetic agrees with the exact
rational value on the deployed 1080×1920 canvas. -/
def y_start (ch total_height : ℚ) : ℚ :=
  7 / 10 * ch - total_height / 2

/-- The vertical center of the rendered text block as
`draw_centered_text` places it.  The function takes the three band mean
luminances of the claim's interface and — exactly like the source, which
never reads a pixel (create_image.py:269-331) — ignores them: the block
is centered at `0.70 * ch` unconditionally. -/
def codeAnchorY (lumTop lumMid lumBot : ℚ) (ch total_height : ℚ) : ℚ :=
  let _ := lumTop
  let _ := lumMid
  let _ := lumBot
  y_start ch total_height + total_height / 2

end CreateImage

namespace SpecModel

/-- Modelled from the spec: §4.2's lexical similarity score, absent from
the repository's `is_too_similar` (generate_text.py:49-68), which only
tests equality and containment.  The score is the classic ratio
`2 * M / (|a| + |b|)` with `M` the length of a longest common
subsequence — a faithful reading of "lexical similarity score" used only
to exhibit inputs the spec's threshold rule would reject.  The recursion
is bounded by a fuel argument; `lcsLen` supplies the total length, which
always suffices. -/
def lcsAux : Nat → List Char → List Char → Nat
  | 0, _, _ => 0
  | _, [], _ => 0
  | _, _, [] => 0
  | fuel + 1, a :: as, b :: bs =>
    if a = b then lcsAux fuel as bs + 1
    else max (lcsAux fuel (a :: as) bs) (lcsAux fuel as (b :: bs))

/-- Modelled from the spec: longest-common-subsequence length. -/
def lcsLen (as bs : List Char) : Nat :=
  lcsAux (as.length + bs.length) as bs

/-- Modelled from the spec: the similarity score of §4.2 as a rational in
[0,1]. -/
def simScore (a b : String) : ℚ :=
  if a.data.length + b.data.length = 0 then 1
  else 2 * (lcsLen a.data b.data : ℚ) / (a.data.length + b.data.length)

/-- Modelled from the spec: §4.5's `fitToRegion` shrink loop, absent from
`draw_centered_text` (create_image.py:269-331), which uses one fixed font
size.  While the measured block height exceeds the region height and the
size is above `minSize` (and the positive step can be taken), decrement
by `step`; otherwise stop and accept the best-effort fit.  The loop is
bounded by a fuel argument; `fitToRegion` supplies the start size, which
always suffices since each step shrinks the size by at least one. -/
def fitAux (blockHeight : Nat → Nat) (minSize step regionH : Nat) :
    Nat → Nat → Nat
  | 0, size => size
  | fuel + 1, size =>
    if regionH < blockHeight size ∧ minSize < size ∧
        0 < step ∧ step ≤ size then
      fitAux blockHeight minSize step regionH fuel (size - step)
    else size

/-- Modelled from the spec: §4.5's `fitToRegion`, returning the chosen
font size. -/
def fitToRegion (blockHeight : Nat → Nat) (minSize step regionH : Nat)
    (startSize : Nat) : Nat :=
  fitAux blockHeight minSize step regionH startSize startSize

/-- Modelled from the spec: §4.5's `placement` band selection, absent
from `draw_centered_text` (create_image.py:269-331).  Pick the band with
the lowest mean luminance, ties broken top, then middle, then bottom,
and map it to the fixed fractional offset (top→18%, middle→50%,
bottom→81%, the midpoint of the spec's 80–82% bottom range). -/
def placementSpec (lumTop lumMid lumBot : ℚ) : ℚ :=
  if lumTop ≤ lumMid ∧ lumTop ≤ lumBot then 18 / 100
  else if lumMid ≤ lumBot then 50 / 100
  else 81 / 100

end SpecModel

/-! ### Character-level lemmas -/

theorem char_toNat_inj {c d : Char} (h : c.toNat = d.toNat) : c = d := by
  have h2 := congrArg Char.ofNat h
  rwa [Char.ofNat_toNat, Char.ofNat_toNat] at h2

theorem toNat_charOfNat_of_lt {n : Nat} (h : n < 55296) :
    (Char.ofNat n).toNat = n := by
  have hv : n.isValidChar := Or.inl h
  rw [Char.ofNat, dif_pos hv]
  simp [Char.ofNatAux, Char.toNat, UInt32.toNat]

theorem toLower_toNat (c : Char) :
    (Char.toLower c).toNat =
      if 65 ≤ c.toNat ∧ c.toNat ≤ 90 then c.toNat + 32 else c.toNat := by
  simp only [Char.toLower]
  by_cases h : 65 ≤ c.toNat ∧ c.toNat ≤ 90
  · rw [if_pos h, if_pos h]
    exact toNat_charOfNat_of_lt (by omega)
  · rw [if_neg h, if_neg h]

theorem isPySpace_of_toLower {c : Char}
    (h : isPySpace (Char.toLower c) = true) : isPySpace c = true := by
  simp only [isPySpace, toLower_toNat, Bool.or_eq_true, Bool.and_eq_true,
    decide_eq_true_eq] at h ⊢
  split at h <;> omega

theorem keepChar_toLower {c : Char} (h : keepChar c = true) :
    keepChar (Char.toLower c) = true := by
  simp only [keepChar, isWordChar, isPySpace, isDevanagari, toLower_toNat,
    Bool.or_eq_true, Bool.and_eq_true, decide_eq_true_eq] at h ⊢
  split <;> omega

theorem toLower_toLower (c : Char) :
    Char.toLower (Char.toLower c) = Char.toLower c := by
  apply char_toNat_inj
  rw [toLower_toNat (Char.toLower c), toLower_toNat c]
  by_cases hP : 65 ≤ c.toNat ∧ c.toNat ≤ 90
  · simp only [if_pos hP]
    rw [if_neg (by omega)]
  · simp only [if_neg hP]

/-! ### Whitespace-structure lemmas -/

theorem mem_collapseAux {c : Char} :
    ∀ {b : Bool} {l : List Char}, c ∈ collapseAux b l → c ∈ l ∨ c = ' ' := by
  intro b l
  induction l generalizing b with
  | nil => intro h; simp [collapseAux] at h
  | cons d t ih =>
    intro h
    rw [collapseAux] at h
    split at h
    · split at h
      · rcases ih h with h' | h'
        · exact Or.inl (List.mem_cons_of_mem _ h')
        · exact Or.inr h'
      · rcases List.mem_cons.mp h with h' | h'
        · exact Or.inr h'
        · rcases ih h' with h'' | h''
          · exact Or.inl (List.mem_cons_of_mem _ h'')
          · exact Or.inr h''
    · rcases List.mem_cons.mp h with h' | h'
      · exact Or.inl (h' ▸ List.mem_cons_self _ _)
      · rcases ih h' with h'' | h''
        · exact Or.inl (List.mem_cons_of_mem _ h'')
        · exact Or.inr h''

theorem mem_stripEndWs {c : Char} :
    ∀ {l : List Char}, c ∈ stripEndWs l → c ∈ l := by
  intro l
  induction l with
  | nil => intro h; simp [stripEndWs] at h
  | cons d t ih =>
    intro h
    rw [stripEndWs] at h
    cases hm : stripEndWs t with
    | nil =>
      rw [hm] at h
      simp at h
      exact h.2 ▸ List.mem_cons_self _ _
    | cons r rs =>
      rw [hm] at h
      rcases List.mem_cons.mp h with h' | h'
      · exact h' ▸ List.mem_cons_self _ _
      · exact List.mem_cons_of_mem _ (ih (hm ▸ h'))

theorem mem_stripWs {c : Char} {l : List Char} (h : c ∈ stripWs l) :
    c ∈ l :=
  (List.dropWhile_sublist _).subset (mem_stripEndWs h)

theorem spacesSimple_collapseAux :
    ∀ (b : Bool) (l : List Char), spacesSimple (collapseAux b l) := by
  intro b l
  induction l generalizing b with
  | nil => intro c hc _; simp [collapseAux] at hc
  | cons d t ih =>
    intro c hc hsp
    rw [collapseAux] at hc
    split at hc
    · split at hc
      · exact ih true c hc hsp
      · rcases List.mem_cons.mp hc with h | h
        · exact h
        · exact ih true c h hsp
    · next hd =>
        rcases List.mem_cons.mp hc with h | h
        · subst h; exact absurd hsp hd
        · exact ih false c h hsp

theorem collapseAux_chain (l : List Char) :
    (∀ b, noTwoSpaces (collapseAux b l)) ∧ headNotSp (collapseAux true l) := by
  induction l with
  | nil => exact ⟨fun _ => List.chain'_nil, by intro c hc; simp [collapseAux] at hc⟩
  | cons d t ih =>
    constructor
    · intro b
      rw [collapseAux]
      split
      · split
        · exact ih.1 true
        · refine List.chain'_cons'.mpr ⟨?_, ih.1 true⟩
          intro y hy
          intro hcon
          have hns := ih.2 y hy
          rw [hns] at hcon
          exact Bool.false_ne_true hcon.2
      · next hd =>
          refine List.chain'_cons'.mpr ⟨?_, ih.1 false⟩
          intro y _
          intro hcon
          exact hd hcon.1
    · rw [collapseAux]
      split
      · intro c hc
        exact ih.2 c hc
      · next hd =>
          intro c hc
          simp at hc
          subst hc
          simpa using hd

theorem stripEndWs_head_cases (l : List Char) :
    stripEndWs l = [] ∨ (stripEndWs l).head? = l.head? := by
  cases l with
  | nil => exact Or.inl rfl
  | cons c t =>
    rw [stripEndWs]
    cases hm : stripEndWs t with
    | nil =>
      by_cases hc : isPySpace c = true
      · exact Or.inl (by simp [hc])
      · exact Or.inr (by simp [hc])
    | cons r rs => exact Or.inr rfl

theorem noTwoSpaces_stripEndWs {l : List Char} (h : noTwoSpaces l) :
    noTwoSpaces (stripEndWs l) := by
  induction l with
  | nil => exact List.chain'_nil
  | cons c t ih =>
    obtain ⟨hrel, ht⟩ := List.chain'_cons'.mp h
    rw [stripEndWs]
    cases hm : stripEndWs t with
    | nil =>
      by_cases hc : isPySpace c = true <;> simp [hc]
    | cons r rs =>
      refine List.chain'_cons'.mpr ⟨?_, hm ▸ ih ht⟩
      intro y hy
      simp at hy
      subst hy
      rcases stripEndWs_head_cases t with h' | h'
      · rw [hm] at h'; simp at h'
      · rw [hm] at h'
        simp at h'
        apply hrel
        rw [← h']
        rfl

theorem lastNotSp_stripEndWs (l : List Char) : lastNotSp (stripEndWs l) := by
  induction l with
  | nil => intro c hc; simp [stripEndWs] at hc
  | cons c t ih =>
    rw [stripEndWs]
    cases hm : stripEndWs t with
    | nil =>
      by_cases hc : isPySpace c = true
      · intro x hx; simp [hc] at hx
      · intro x hx
        simp [hc] at hx
        subst hx
        simpa using hc
    | cons r rs =>
      intro x hx
      rw [List.getLast?_cons_cons] at hx
      exact ih x (hm ▸ hx)

theorem headNotSp_dropWhile (l : List Char) :
    headNotSp (l.dropWhile isPySpace) := by
  induction l with
  | nil => intro c hc; simp at hc
  | cons c t ih =>
    rw [List.dropWhile_cons]
    split
    · exact ih
    · next hd =>
        intro x hx
        simp at hx
        subst hx
        simpa using hd

theorem dropWhile_eq_self_of_headNotSp {l : List Char} (h : headNotSp l) :
    l.dropWhile isPySpace = l := by
  cases l with
  | nil => rfl
  | cons c t =>
    rw [List.dropWhile_cons, if_neg]
    rw [h c rfl]
    simp

theorem stripEndWs_eq_self_of_lastNotSp {l : List Char} (h : lastNotSp l) :
    stripEndWs l = l := by
  induction l with
  | nil => rfl
  | cons c t ih =>
    cases t with
    | nil =>
      have hc : isPySpace c = false := h c rfl
      rw [stripEndWs, stripEndWs]
      simp [hc]
    | cons d t' =>
      have ht : lastNotSp (d :: t') := by
        intro x hx
        exact h x (by rw [List.getLast?_cons_cons]; exact hx)
      rw [stripEndWs, ih ht]

theorem stripWs_eq_self {l : List Char} (hh : headNotSp l) (hl : lastNotSp l) :
    stripWs l = l := by
  rw [stripWs, dropWhile_eq_self_of_headNotSp hh,
    stripEndWs_eq_self_of_lastNotSp hl]

theorem headNotSp_stripWs (l : List Char) : headNotSp (stripWs l) := by
  rw [stripWs]
  rcases stripEndWs_head_cases (l.dropWhile isPySpace) with h | h
  · rw [h]; intro c hc; simp at hc
  · intro c hc
    rw [h] at hc
    exact headNotSp_dropWhile l c hc

theorem lastNotSp_stripWs (l : List Char) : lastNotSp (stripWs l) :=
  lastNotSp_stripEndWs _

theorem noTwoSpaces_dropWhile {l : List Char} (h : noTwoSpaces l) :
    noTwoSpaces (l.dropWhile isPySpace) :=
  h.suffix (List.dropWhile_suffix _)

theorem noTwoSpaces_stripWs {l : List Char} (h : noTwoSpaces l) :
    noTwoSpaces (stripWs l) :=
  noTwoSpaces_stripEndWs (noTwoSpaces_dropWhile h)

/-! ### Lower-casing preserves the canonical whitespace structure -/

theorem spacesSimple_map_toLower {l : List Char} (h : spacesSimple l) :
    spacesSimple (l.map Char.toLower) := by
  intro c hc hsp
  rcases List.mem_map.mp hc with ⟨d, hd, rfl⟩
  have : d = ' ' := h d hd (isPySpace_of_toLower hsp)
  subst this
  rfl

theorem noTwoSpaces_map_toLower {l : List Char} (h : noTwoSpaces l) :
    noTwoSpaces (l.map Char.toLower) := by
  rw [noTwoSpaces, List.chain'_map]
  exact h.imp fun {a b} hab hcon =>
    hab ⟨isPySpace_of_toLower hcon.1, isPySpace_of_toLower hcon.2⟩

theorem headNotSp_map_toLower {l : List Char} (h : headNotSp l) :
    headNotSp (l.map Char.toLower) := by
  intro c hc
  rw [List.head?_map] at hc
  cases hm : l.head? with
  | none => rw [hm] at hc; simp at hc
  | some d =>
    rw [hm] at hc
    simp at hc
    subst hc
    have hd := h d hm
    by_contra hcon
    simp at hcon
    rw [isPySpace_of_toLower hcon] at hd
    exact Bool.noConfusion hd

theorem lastNotSp_map_toLower {l : List Char} (h : lastNotSp l) :
    lastNotSp (l.map Char.toLower) := by
  intro c hc
  rw [List.getLast?_map] at hc
  cases hm : l.getLast? with
  | none => rw [hm] at hc; simp at hc
  | some d =>
    rw [hm] at hc
    simp at hc
    subst hc
    have hd := h d hm
    by_contra hcon
    simp at hcon
    rw [isPySpace_of_toLower hcon] at hd
    exact Bool.noConfusion hd

/-! ### The collapse step fixes canonical strings -/

theorem collapseAux_eq_self {l : List Char} (hS : spacesSimple l)
    (hT : noTwoSpaces l) :
    collapseAux false l = l ∧ (headNotSp l → collapseAux true l = l) := by
  induction l with
  | nil => exact ⟨rfl, fun _ => rfl⟩
  | cons c t ih =>
    have hSt : spacesSimple t := fun x hx => hS x (List.mem_cons_of_mem _ hx)
    obtain ⟨hrel, hTt⟩ := List.chain'_cons'.mp hT
    have iht := ih hSt hTt
    by_cases hc : isPySpace c = true
    · have hceq : c = ' ' := hS c (List.mem_cons_self _ _) hc
      have hht : headNotSp t := by
        intro y hy
        by_contra hcon
        simp at hcon
        exact hrel y hy ⟨hc, hcon⟩
      constructor
      · rw [collapseAux, if_pos hc]
        simp only [Bool.false_eq_true, if_false]
        rw [iht.2 hht, hceq]
      · intro hh
        have := hh c rfl
        rw [hc] at this
        exact Bool.noConfusion this
    · have hcf : isPySpace c = false := by simpa using hc
      constructor
      · rw [collapseAux, if_neg hc, iht.1]
      · intro _
        rw [collapseAux, if_neg hc, iht.1]

/-! ### Idempotence of the comparison normalization -/

theorem normChars_keep {cs : List Char} :
    ∀ c ∈ GenerateText.normChars cs, keepChar c = true := by
  intro c hc
  rw [GenerateText.normChars] at hc
  rcases List.mem_map.mp hc with ⟨d, hd, rfl⟩
  apply keepChar_toLower
  have hd2 := mem_stripWs hd
  rcases mem_collapseAux hd2 with h | h
  · exact List.of_mem_filter h
  · subst h; decide

theorem normChars_spacesSimple (cs : List Char) :
    spacesSimple (GenerateText.normChars cs) := by
  rw [GenerateText.normChars]
  apply spacesSimple_map_toLower
  intro c hc hsp
  exact spacesSimple_collapseAux false _ c (mem_stripWs hc) hsp

theorem normChars_noTwoSpaces (cs : List Char) :
    noTwoSpaces (GenerateText.normChars cs) := by
  rw [GenerateText.normChars]
  exact noTwoSpaces_map_toLower
    (noTwoSpaces_stripWs ((collapseAux_chain _).1 false))

theorem normChars_headNotSp (cs : List Char) :
    headNotSp (GenerateText.normChars cs) := by
  rw [GenerateText.normChars]
  exact headNotSp_map_toLower (headNotSp_stripWs _)

theorem normChars_lastNotSp (cs : List Char) :
    lastNotSp (GenerateText.normChars cs) := by
  rw [GenerateText.normChars]
  exact lastNotSp_map_toLower (lastNotSp_stripWs _)

theorem normChars_idem (cs : List Char) :
    GenerateText.normChars (GenerateText.normChars cs) =
      GenerateText.normChars cs := by
  have hfilter : (GenerateText.normChars cs).filter keepChar =
      GenerateText.normChars cs :=
    List.filter_eq_self.mpr normChars_keep
  conv_lhs => rw [GenerateText.normChars]
  rw [hfilter]
  rw [show collapseWs (GenerateText.normChars cs) =
        collapseAux false (GenerateText.normChars cs) from rfl]
  rw [(collapseAux_eq_self (normChars_spacesSimple cs)
        (normChars_noTwoSpaces cs)).1]
  rw [stripWs_eq_self (normChars_headNotSp cs) (normChars_lastNotSp cs)]
  rw [GenerateText.normChars, List.map_map]
  exact List.map_congr_left fun c _ => toLower_toLower c

/-! ### String split / join round trip -/

theorem data_asString (l : List Char) : (List.asString l).data = l := rfl

theorem asString_data (s : String) : s.data.asString = s := rfl

theorem splitAux_append_word {w rest acc : List Char}
    (hw : ∀ c ∈ w, isPySpace c = false) :
    splitAux (w ++ rest) acc = splitAux rest (w.reverse ++ acc) := by
  induction w generalizing acc with
  | nil => simp
  | cons c w' ih =>
    have hc : isPySpace c = false := hw c (List.mem_cons_self _ _)
    rw [List.cons_append, splitAux, if_neg (by simp [hc])]
    rw [ih fun x hx => hw x (List.mem_cons_of_mem _ hx)]
    simp

theorem splitAux_words {cs : List Char} :
    ∀ {acc : List Char}, (∀ c ∈ acc, isPySpace c = false) →
      ∀ w ∈ splitAux cs acc, w ≠ [] ∧ ∀ c ∈ w, isPySpace c = false := by
  induction cs with
  | nil =>
    intro acc hacc w hw
    rw [splitAux] at hw
    split at hw
    · simp at hw
    · next hne =>
        simp at hw
        subst hw
        refine ⟨by simpa using hne, ?_⟩
        intro c hc
        exact hacc c (List.mem_reverse.mp hc)
  | cons c t ih =>
    intro acc hacc w hw
    rw [splitAux] at hw
    split at hw
    · split at hw
      · exact ih (by simp) w hw
      · next hne =>
          rcases List.mem_cons.mp hw with h | h
          · subst h
            refine ⟨by simpa using hne, ?_⟩
            intro x hx
            exact hacc x (List.mem_reverse.mp hx)
          · exact ih (by simp) w h
    · next hc =>
        refine ih ?_ w hw
        intro x hx
        rcases List.mem_cons.mp hx with h | h
        · subst h; simpa using hc
        · exact hacc x h

theorem wordsOfChars_joinSp {gs : List (List Char)}
    (hg : ∀ g ∈ gs, g ≠ [] ∧ ∀ c ∈ g, isPySpace c = false) :
    wordsOfChars (joinSpChars gs) = gs := by
  induction gs with
  | nil => rfl
  | cons g gs' ih =>
    obtain ⟨hne, hnc⟩ := hg g (List.mem_cons_self _ _)
    cases gs' with
    | nil =>
      show splitAux (joinSpChars [g]) [] = [g]
      rw [joinSpChars]
      rw [show g = g ++ [] from (List.append_nil g).symm]
      rw [splitAux_append_word hnc]
      rw [splitAux]
      simp [hne]
    | cons g2 gs'' =>
      show splitAux (g ++ ' ' :: joinSpChars (g2 :: gs'')) [] = g :: g2 :: gs''
      rw [splitAux_append_word hnc]
      rw [splitAux, if_pos (by decide), if_neg (by simp [hne])]
      have ih2 := ih fun x hx => hg x (List.mem_cons_of_mem _ hx)
      rw [show splitAux (joinSpChars (g2 :: gs'')) [] =
            wordsOfChars (joinSpChars (g2 :: gs'')) from rfl, ih2]
      simp

theorem pySplit_words_good {s : String} :
    ∀ w ∈ pySplit s, w.data ≠ [] ∧ ∀ c ∈ w.data, isPySpace c = false := by
  intro w hw
  rcases List.mem_map.mp hw with ⟨cw, hcw, rfl⟩
  rw [data_asString]
  exact splitAux_words (by simp) cw hcw

theorem pySplit_joinSp {g : List String}
    (hw : ∀ w ∈ g, w.data ≠ [] ∧ ∀ c ∈ w.data, isPySpace c = false) :
    pySplit (joinSp g) = g := by
  rw [pySplit, joinSp, data_asString]
  rw [wordsOfChars_joinSp ?_]
  · rw [List.map_map]
    have : ∀ w ∈ g, (List.asString ∘ String.data) w = id w :=
      fun w _ => asString_data w
    rw [List.map_congr_left this, List.map_id]
  · intro gd hgd
    rcases List.mem_map.mp hgd with ⟨w, hwmem, rfl⟩
    exact hw w hwmem

/-! ### Greedy word-wrap lemmas -/

theorem wrapLoop_flatten (f : String → Nat) (maxW : Nat) :
    ∀ (ws cur : List String),
      (CreateImage.wrapLoop f maxW ws cur).flatten = cur ++ ws := by
  intro ws
  induction ws with
  | nil =>
    intro cur
    rw [CreateImage.wrapLoop]
    split
    · next h => simp [h]
    · simp
  | cons w ws' ih =>
    intro cur
    rw [CreateImage.wrapLoop]
    split
    · rw [ih (cur ++ [w])]
      simp
    · split
      · next h =>
          rw [ih [w]]
          simp [h]
      · rw [List.flatten_cons, ih [w]]
        simp

theorem wrapLoop_ne_nil (f : String → Nat) (maxW : Nat) :
    ∀ (ws cur : List String) (g : List String),
      g ∈ CreateImage.wrapLoop f maxW ws cur → g ≠ [] := by
  intro ws
  induction ws with
  | nil =>
    intro cur g hg
    rw [CreateImage.wrapLoop] at hg
    split at hg
    · simp at hg
    · next h =>
        simp at hg
        subst hg
        exact h
  | cons w ws' ih =>
    intro cur g hg
    rw [CreateImage.wrapLoop] at hg
    split at hg
    · exact ih _ _ hg
    · split at hg
      · exact ih _ _ hg
      · next h =>
          rcases List.mem_cons.mp hg with h' | h'
          · subst h'; exact h
          · exact ih _ _ h'

theorem wrapLoop_width (f : String → Nat) (maxW : Nat) :
    ∀ (ws cur : List String),
      (cur = [] ∨ f (joinSp cur) ≤ maxW ∨ cur.length = 1) →
      ∀ g ∈ CreateImage.wrapLoop f maxW ws cur,
        f (joinSp g) ≤ maxW ∨ g.length = 1 := by
  intro ws
  induction ws with
  | nil =>
    intro cur hcur g hg
    rw [CreateImage.wrapLoop] at hg
    split at hg
    · simp at hg
    · next h =>
        simp at hg
        subst hg
        rcases hcur with h' | h' | h'
        · exact absurd h' h
        · exact Or.inl h'
        · exact Or.inr h'
  | cons w ws' ih =>
    intro cur hcur g hg
    rw [CreateImage.wrapLoop] at hg
    split at hg
    · next hfit => exact ih (cur ++ [w]) (Or.inr (Or.inl hfit)) g hg
    · split at hg
      · exact ih [w] (Or.inr (Or.inr rfl)) g hg
      · next h =>
          rcases List.mem_cons.mp hg with h' | h'
          · subst h'
            rcases hcur with h'' | h'' | h''
            · exact absurd h'' h
            · exact Or.inl h''
            · exact Or.inr h''
          · exact ih [w] (Or.inr (Or.inr rfl)) g h'

/-! ### Claim theorems -/

/-- C1: the claim states that once `max_attempts` REQUEST/VALIDATE/DEDUPE
cycles are exhausted the orchestrator returns a non-empty caption (the
tracked near-miss, else a style example) and never raises.
`generate_unique_krishna_line` violates this: its `last_good` tracker is
initialized to `None` (generate_text.py:171) and never assigned, so after
a run of `max_attempts = 2` whose attempts are one English-only candidate
(rejected by validation) and one provider error, the exhaustion branch
falls through `if last_good:` and raises RuntimeError — modelled as
`Except.error` — instead of returning a fallback caption.  The source's
own comment at line 195 ("return the last candidate") shows the intent
the code fails to implement. -/
theorem C1_exhaustion_raises :
    GenerateText.generate_unique_krishna_line [some "hello world", none] []
      = Except.error "कोई भी valid हिंदी कृष्ण लाइन नहीं बन पाई।" := rfl

/-- C2: counterexample to "after inserting cap + 1 distinct accepted
entries into a store capped at cap, the length equals cap and the
first-inserted entry is absent".  With cap = 2 and the three distinct
entries क, ख, ग accepted into an empty history, the persisted store has
length 3, not 2, and the first entry क is still present: the code never
evicts. -/
theorem C2_counterexample :
    (GenerateText.save_used_texts
        (GenerateText.addUsed
          (GenerateText.addUsed (GenerateText.addUsed [] "क") "ख") "ग")).length
        = 3 ∧
    "क" ∈ GenerateText.save_used_texts
        (GenerateText.addUsed
          (GenerateText.addUsed (GenerateText.addUsed [] "क") "ख") "ग") ∧
    (GenerateText.save_used_texts
        (GenerateText.addUsed
          (GenerateText.addUsed (GenerateText.addUsed [] "क") "ख") "ग")).length
        ≠ 2 := by
  refine ⟨by decide, by decide, by decide⟩

/-- C2 amended: the history is append-only and uncapped.  Inserting any
sequence of accepted entries appends them in order: the length grows by
exactly the number of insertions and every previously stored entry (in
particular the first) remains present; the persisted file receives the
whole list. -/
theorem C2_amended_no_eviction (used entries : List String) :
    GenerateText.save_used_texts (entries.foldl GenerateText.addUsed used)
        = used ++ entries ∧
    (entries.foldl GenerateText.addUsed used).length
        = used.length + entries.length ∧
    ∀ x ∈ used, x ∈ entries.foldl GenerateText.addUsed used := by
  have h : entries.foldl GenerateText.addUsed used = used ++ entries := by
    induction entries generalizing used with
    | nil => simp
    | cons e es ih =>
      rw [List.foldl_cons, ih]
      simp [GenerateText.addUsed]
  refine ⟨h, by rw [h]; simp, fun x hx => by rw [h]; exact List.mem_append_left _ hx⟩

/-- C2 witness: the amended statement evaluated on the concrete
three-entry run. -/
theorem C2_witness :
    GenerateText.save_used_texts (["ख", "ग"].foldl GenerateText.addUsed ["क"])
        = ["क"] ++ ["ख", "ग"] ∧
    (["ख", "ग"].foldl GenerateText.addUsed ["क"]).length = 1 + 2 ∧
    "क" ∈ ["ख", "ग"].foldl GenerateText.addUsed ["क"] :=
  ⟨(C2_amended_no_eviction ["क"] ["ख", "ग"]).1,
   (C2_amended_no_eviction ["क"] ["ख", "ग"]).2.1,
   (C2_amended_no_eviction ["क"] ["ख", "ग"]).2.2 "क" (by decide)⟩

/-- C3: counterexample to the similarity-threshold trigger.  The
candidate "abcde x" and history entry "abcde y" have normalized forms
whose lexical similarity score is 6/7 ≈ 0.857, above the configured
threshold 0.78, and neither normalized form contains the other — yet
`is_too_similar` returns `false`: the code has no similarity-score
trigger at all, only equality and containment. -/
theorem C3_counterexample :
    SpecModel.simScore (GenerateText.normalize_for_compare "abcde x")
        (GenerateText.normalize_for_compare "abcde y") > 78 / 100 ∧
    hasSub (GenerateText.normalize_for_compare "abcde y").data
        (GenerateText.normalize_for_compare "abcde x").data = false ∧
    hasSub (GenerateText.normalize_for_compare "abcde x").data
        (GenerateText.normalize_for_compare "abcde y").data = false ∧
    GenerateText.is_too_similar "abcde x" ["abcde y"] = false := by
  refine ⟨?_, by decide, by decide, by decide⟩
  have hx : GenerateText.normalize_for_compare "abcde x" = "abcde x" := rfl
  have hy : GenerateText.normalize_for_compare "abcde y" = "abcde y" := rfl
  rw [hx, hy]
  have h6 : SpecModel.lcsLen "abcde x".data "abcde y".data = 6 := by decide
  simp only [SpecModel.simScore, h6]
  norm_num

/-- C3 amended: `is_too_similar` returns true exactly when the
candidate's normalized form is empty, or some history entry has a
nonempty normalized form that is equal to, contains, or is contained in
the candidate's; the equality and containment rules are the only
triggers — no lexical-similarity threshold exists in the code. -/
theorem C3_amended_characterization (c : String) (H : List String) :
    GenerateText.is_too_similar c H = true ↔
      (GenerateText.normalize_for_compare c = "" ∨
        ∃ h ∈ H, GenerateText.normalize_for_compare h ≠ "" ∧
          (GenerateText.normalize_for_compare c
              = GenerateText.normalize_for_compare h ∨
           hasSub (GenerateText.normalize_for_compare h).data
              (GenerateText.normalize_for_compare c).data = true ∨
           hasSub (GenerateText.normalize_for_compare c).data
              (GenerateText.normalize_for_compare h).data = true)) := by
  simp only [GenerateText.is_too_similar]
  by_cases hc : GenerateText.normalize_for_compare c = ""
  · simp [hc]
  · rw [if_neg hc, List.any_eq_true]
    constructor
    · rintro ⟨h, hmem, hp⟩
      refine Or.inr ⟨h, hmem, ?_⟩
      by_cases hh : GenerateText.normalize_for_compare h = ""
      · rw [if_pos hh] at hp
        exact absurd hp (by simp)
      · rw [if_neg hh] at hp
        simp only [Bool.or_eq_true, decide_eq_true_eq] at hp
        exact ⟨hh, by tauto⟩
    · rintro (hc' | ⟨h, hmem, hh, hdis⟩)
      · exact absurd hc' hc
      · refine ⟨h, hmem, ?_⟩
        rw [if_neg hh]
        simp only [Bool.or_eq_true, decide_eq_true_eq]
        tauto

/-- C7: if the candidate's normalized form equals that of some history
entry, `is_too_similar` rejects the candidate. -/
theorem C7_normalized_equal_rejected (c : String) (H : List String)
    (h : String) (hmem : h ∈ H)
    (heq : GenerateText.normalize_for_compare c
        = GenerateText.normalize_for_compare h) :
    GenerateText.is_too_similar c H = true := by
  simp only [GenerateText.is_too_similar]
  by_cases hc : GenerateText.normalize_for_compare c = ""
  · rw [if_pos hc]
  · rw [if_neg hc, List.any_eq_true]
    refine ⟨h, hmem, ?_⟩
    rw [if_neg (by rw [← heq]; exact hc)]
    simp [heq]

/-- C7 witness: the rejection evaluated on a concrete one-entry history. -/
theorem C7_witness :
    GenerateText.is_too_similar "कृष्ण साथ है" ["कृष्ण साथ है"] = true :=
  C7_normalized_equal_rejected "कृष्ण साथ है" ["कृष्ण साथ है"]
    "कृष्ण साथ है" (by simp) rfl

/-- C8: `normalize_for_compare` is idempotent: normalizing an already
normalized string changes nothing. -/
theorem C8_normalize_idempotent (x : String) :
    GenerateText.normalize_for_compare (GenerateText.normalize_for_compare x)
      = GenerateText.normalize_for_compare x := by
  show (GenerateText.normChars
      ((GenerateText.normChars x.data).asString).data).asString
      = (GenerateText.normChars x.data).asString
  rw [data_asString, normChars_idem]

/-- C9: the greedy word-wrap preserves the input exactly: concatenating
the whitespace-split words of the returned lines, in order, yields the
whitespace-split word sequence of the input — no word is dropped,
duplicated, or reordered. -/
theorem C9_wrap_preserves_words (f : String → Nat) (maxW : Nat)
    (text : String) :
    ((CreateImage.wrappedLines f maxW text).map pySplit).flatten
      = pySplit text := by
  rw [CreateImage.wrappedLines, List.map_map]
  have hgood : ∀ g ∈ CreateImage.wrapLoop f maxW (pySplit text) [],
      (pySplit ∘ joinSp) g = id g := by
    intro g hgmem
    show pySplit (joinSp g) = g
    apply pySplit_joinSp
    intro w hwmem
    have hwin : w ∈ pySplit text := by
      have h1 : w ∈ (CreateImage.wrapLoop f maxW (pySplit text) []).flatten :=
        List.mem_flatten.mpr ⟨g, hgmem, hwmem⟩
      rwa [wrapLoop_flatten, List.nil_append] at h1
    exact pySplit_words_good w hwin
  rw [List.map_congr_left hgood, List.map_id]
  simpa using wrapLoop_flatten f maxW (pySplit text) []

/-- C5: counterexample to "every line's measured width is ≤ W except the
merged final line when the count would exceed maxLineCount".  With the
width measure `String.length` and budget W = 5, the input "aaaaaaaa b"
wraps to two lines — within any configured maxLineCount of 2–3, so the
documented merge exception cannot apply — and the first (non-final) line
"aaaaaaaa" has width 8 > 5: a single over-long word always produces an
over-budget line, merge or no merge. -/
theorem C5_counterexample :
    CreateImage.wrappedLines String.length 5 "aaaaaaaa b"
        = ["aaaaaaaa", "b"] ∧
    ("aaaaaaaa" : String).length > 5 ∧
    (CreateImage.wrappedLines String.length 5 "aaaaaaaa b").length = 2 := by
  refine ⟨by decide, by decide, by decide⟩

/-- C5 amended: every line produced by the greedy wrap either fits the
width budget or consists of a single word (whose own width may exceed
the budget); there is no maxLineCount-triggered merge in the code. -/
theorem C5_amended_width (f : String → Nat) (maxW : Nat) (text : String)
    (g : List String)
    (hg : g ∈ CreateImage.wrapLoop f maxW (pySplit text) []) :
    f (joinSp g) ≤ maxW ∨ g.length = 1 :=
  wrapLoop_width f maxW (pySplit text) [] (Or.inl rfl) g hg

/-- C5 witness: the amended statement evaluated on the counterexample's
first line. -/
theorem C5_witness :
    String.length (joinSp ["aaaaaaaa"]) ≤ 5 ∨
      (["aaaaaaaa"] : List String).length = 1 :=
  C5_amended_width String.length 5 "aaaaaaaa b" ["aaaaaaaa"] (by decide)

/-- C4: counterexample to the shrink-to-fit description.  A spec-faithful
`fitToRegion` with block height 240 in a 200-high region, minFontSize 30
and step 2, started at the code's size 52, shrinks to 30; the code's
`draw_centered_text` instead keeps size 52 for the same overflowing text:
no decrement loop exists in the source. -/
theorem C4_counterexample :
    SpecModel.fitToRegion (fun _ => 240) 30 2 200 52 = 30 ∧
    CreateImage.draw_font_size
        "कृष्ण कृष्ण कृष्ण कृष्ण कृष्ण कृष्ण कृष्ण कृष्ण कृष्ण कृष्ण" = 52 ∧
    (30 : Nat) ≠ 52 :=
  ⟨by decide, rfl, by decide⟩

/-- C4 amended: `draw_centered_text` uses the fixed font size 52 for
every input text, long or short: the size never changes, so it never
falls below any minimum bound ≤ 52, with no loop and no exception. -/
theorem C4_amended_fixed_size (text : String) (minFont : Nat)
    (hmin : minFont ≤ 52) :
    CreateImage.draw_font_size text = 52 ∧
      minFont ≤ CreateImage.draw_font_size text :=
  ⟨rfl, hmin⟩

/-- C4 witness: the amended statement at a concrete long text and
minimum size 30. -/
theorem C4_witness :
    CreateImage.draw_font_size "कृष्ण पर छोड़ दो" = 52 ∧
      30 ≤ CreateImage.draw_font_size "कृष्ण पर छोड़ दो" :=
  C4_amended_fixed_size "कृष्ण पर छोड़ दो" 30 (by decide)

/-- C6: counterexample to luminance-based placement.  On a region whose
bottom band mean luminance (1) is strictly below the top and middle
bands (5, 5), the spec's placement maps to the bottom offset 81% — for a
1920-high canvas, y = 1555.2 — while `draw_centered_text` centers the
block (here of height 100) at the fixed 70% anchor, y = 1344,
independent of every luminance value: the code never samples bands. -/
theorem C6_counterexample :
    SpecModel.placementSpec 5 5 1 = 81 / 100 ∧
    CreateImage.codeAnchorY 5 5 1 1920 100 = 1344 ∧
    SpecModel.placementSpec 5 5 1 * 1920 = 15552 / 10 ∧
    CreateImage.codeAnchorY 5 5 1 1920 100
      ≠ SpecModel.placementSpec 5 5 1 * 1920 := by
  refine ⟨?_, ?_, ?_, ?_⟩ <;>
    norm_num [SpecModel.placementSpec, CreateImage.codeAnchorY,
      CreateImage.y_start]

/-- C6 amended: the vertical placement of `draw_centered_text` is
luminance-independent: whatever the three band means are, the text block
is centered at exactly 70% of the canvas height. -/
theorem C6_amended_fixed_anchor (lt lm lb lt' lm' lb' ch th : ℚ) :
    CreateImage.codeAnchorY lt lm lb ch th
        = CreateImage.codeAnchorY lt' lm' lb' ch th ∧
    CreateImage.codeAnchorY lt lm lb ch th = 7 / 10 * ch := by
  constructor <;>
    simp [CreateImage.codeAnchorY, CreateImage.y_start]

/-- C10: counterexample to "a generated candidate exactly equal to a
built-in style example is always rejected as a duplicate".  The style
example ending in 🔱 is in the loaded used set, but its only emoji is
outside EMOJIS, so `ensure_emoji` appends a danda and a fresh emoji pair
before the dedupe check; the modified line is not in the used set and the
run accepts and returns it (the fallback pick, a different example, is
not returned). -/
theorem C10_counterexample :
    ("कृष्ण चुप रहते हैं, लेकिन कभी गलत नहीं करते। 🔱"
        ∈ CreateImage.STYLE_EXAMPLES) ∧
    ("कृष्ण चुप रहते हैं, लेकिन कभी गलत नहीं करते। 🔱"
        ∈ CreateImage.load_used_lines .missing) ∧
    (CreateImage.generate_deep_krishna_line
        [some ("कृष्ण चुप रहते हैं, लेकिन कभी गलत नहीं करते। 🔱", "❤️🌸")]
        "जब सब छूट जाए, तब भी श्रीकृष्ण साथ रहते हैं। ❤️" "✨💙"
        (CreateImage.load_used_lines .missing)).1
      = "कृष्ण चुप रहते हैं, लेकिन कभी गलत नहीं करते। 🔱। ❤️🌸" ∧
    "कृष्ण चुप रहते हैं, लेकिन कभी गलत नहीं करते। 🔱। ❤️🌸"
      ≠ "कृष्ण चुप रहते हैं, लेकिन कभी गलत नहीं करते। 🔱" := by
  refine ⟨by decide, by decide, by decide, by decide⟩

/-- C10 amended: `load_used_lines` always returns a superset of
STYLE_EXAMPLES and is never empty, whether the state file is missing,
corrupt, or valid; and a candidate is rejected as a duplicate precisely
when its cleaned, emoji-ensured form is in the used set — in that case a
single-attempt run falls through to the fallback pick.  (The example
whose only emoji 🔱 is outside EMOJIS is altered by `ensure_emoji`, so a
raw candidate equal to it escapes this rejection, as the counterexample
shows.) -/
theorem C10_amended (st : CreateImage.UsedState)
    (raw draw fbPick fbDraw : String)
    (hmem : CreateImage.ensure_emoji (CreateImage.clean_line raw) draw
        ∈ CreateImage.load_used_lines st) :
    (∀ e ∈ CreateImage.STYLE_EXAMPLES, e ∈ CreateImage.load_used_lines st) ∧
    CreateImage.load_used_lines st ≠ ∅ ∧
    (CreateImage.generate_deep_krishna_line [some (raw, draw)] fbPick fbDraw
        (CreateImage.load_used_lines st)).1
      = CreateImage.ensure_emoji (CreateImage.clean_line fbPick) fbDraw := by
  have hsup : ∀ e ∈ CreateImage.STYLE_EXAMPLES,
      e ∈ CreateImage.load_used_lines st := by
    intro e he
    cases st with
    | missing => simpa [CreateImage.load_used_lines] using he
    | corrupt => simpa [CreateImage.load_used_lines] using he
    | valid d =>
      simp only [CreateImage.load_used_lines, Finset.mem_union,
        List.mem_toFinset]
      exact Or.inr he
  refine ⟨hsup, ?_, ?_⟩
  · exact Finset.ne_empty_of_mem
      (hsup "जब सब छूट जाए, तब भी श्रीकृष्ण साथ रहते हैं। ❤️" (by decide))
  · simp only [CreateImage.generate_deep_krishna_line, CreateImage.deepGo]
    split
    · rfl
    · split
      · rfl
      · split
        · rfl
        · split
          · rfl
          · next hcond => exact absurd (Or.inl hmem) hcond

/-- C10 witness: the amended statement on the first style example, whose
❤️ is in EMOJIS, with the missing-file state. -/
theorem C10_witness :
    ("हर टूटे दिल की दवा सिर्फ एक — श्रीकृष्ण। ❤️"
        ∈ CreateImage.load_used_lines .missing) ∧
    CreateImage.load_used_lines .missing ≠ ∅ ∧
    (CreateImage.generate_deep_krishna_line
        [some ("जब सब छूट जाए, तब भी श्रीकृष्ण साथ रहते हैं। ❤️", "✨")]
        "जिसने कृष्ण को पाया, उसने सब कुछ पा लिया। 🌸" "💙"
        (CreateImage.load_used_lines .missing)).1
      = CreateImage.ensure_emoji
          (CreateImage.clean_line "जिसने कृष्ण को पाया, उसने सब कुछ पा लिया। 🌸")
          "💙" :=
  ⟨(C10_amended .missing "जब सब छूट जाए, तब भी श्रीकृष्ण साथ रहते हैं। ❤️" "✨"
      "जिसने कृष्ण को पाया, उसने सब कुछ पा लिया। 🌸" "💙" (by decide)).1
      "हर टूटे दिल की दवा सिर्फ एक — श्रीकृष्ण। ❤️" (by decide),
   (C10_amended .missing "जब सब छूट जाए, तब भी श्रीकृष्ण साथ रहते हैं। ❤️" "✨"
      "जिसने कृष्ण को पाया, उसने सब कुछ पा लिया। 🌸" "💙" (by decide)).2.1,
   (C10_amended .missing "जब सब छूट जाए, तब भी श्रीकृष्ण साथ रहते हैं। ❤️" "✨"
      "जिसने कृष्ण को पाया, उसने सब कुछ पा लिया। 🌸" "💙" (by decide)).2.2⟩


